import Mathlib

/-!
Shallow embedding of the scheduler core of `isobar_ext/timelines/timeline.py`
(the `Timeline` class and its `Action` dataclass), over exact rational
arithmetic in place of Python floats.

Conventions of the embedding:
* Python floats become `ℚ`; `round(x, 8)` becomes `round8` below.
* Python object identity for `Track` is modelled by a numeric `id` field; no
  two distinct live tracks share an `id`, so structural equality coincides
  with identity.
* `list.remove` (which raises `ValueError` when the element is absent) is
  modelled by `pyRemove`, returning `none` in the `ValueError` case.
* The per-track generation logic (`Track.tick`, `Track.is_finished`,
  `Track.update`, note-off bookkeeping) lives in `track.py`, which is not part
  of the sources under verification; it is modelled from the spec as an
  abstract per-tick outcome, see `TrackTickOutcome`.
* Deferred-action callbacks are opaque Python callables; they are modelled
  denotationally by the effects they can have on scheduler state
  (`StateOp`): deferred track insertion, and further calls into
  `Timeline._schedule_action`.
-/

namespace IsobarExt

/-- `round(x, 8)`: round to 8 decimal places.  Python's float `round` rounds
half to even; the model uses Mathlib's `round` (half up).  The claims under
verification do not depend on the behaviour at exact half-way points. -/
def round8 (q : ℚ) : ℚ := (round (q * 100000000) : ℤ) / 100000000

/-- Python truthiness of an `Optional[float]`: `None` and `0.0` are falsy. -/
def qTruthy : Option ℚ → Bool
  | none => false
  | some q => q != 0

/-- `list.insert(i, x)`: insert before position `i`, appending when `i` is at
or beyond the end (Python semantics for non-negative indices). -/
def pyInsert {α : Type} (l : List α) (i : ℕ) (a : α) : List α :=
  l.take i ++ a :: l.drop i

/-- `list.remove(x)`: remove the first occurrence, `ValueError` (modelled as
`none`) when absent. -/
def pyRemove {α : Type} [DecidableEq α] (l : List α) (a : α) : Option (List α) :=
  if a ∈ l then some (l.erase a) else none

/-- First value bound to key `k` in an insertion-ordered association list
(models Python `dict` lookup; `none` models `KeyError`). -/
def dictGet {α : Type} (d : List (ℕ × α)) (k : ℕ) : Option α :=
  match d with
  | [] => none
  | p :: rest => if p.1 = k then some p.2 else dictGet rest k

/-- Python `dict` assignment: overwrite in place when the key is present,
append otherwise. -/
def dictSet {α : Type} (d : List (ℕ × α)) (k : ℕ) (v : α) : List (ℕ × α) :=
  if (dictGet d k).isSome then
    d.map (fun p => if p.1 = k then (k, v) else p)
  else
    d ++ [(k, v)]

/-- What one invocation of `Track.tick()` does.  Modelled from the spec:
`Track` is an external collaborator exposing `tick()`, `is_finished` and
`remove_when_done`; `is_finished` is "true once its event generator is
exhausted and no pending note-offs remain", so a tick that raises a failure
(an abnormal exit, not exhaustion) leaves the track not finished. -/
inductive TrackTickOutcome
  | ok (finished : Bool)
  | raises
  deriving DecidableEq, Repr

/-- Modelled from the spec: a registered `Track`, reduced to the interface the
scheduler consumes (`track.py` is not among the sources).  `id` models Python
object identity; `params` stands for the opaque event-parameter dictionary
last passed to `Track.update`. -/
structure Track where
  id : ℕ
  name : Option String
  params : ℕ
  outcome : TrackTickOutcome
  remove_when_done : Bool
  deriving DecidableEq, Repr

/-- Denotation of a deferred-action callback: the scheduler-state effects a
callback can perform.  Modelled from the spec: callbacks are opaque
callables whose known effects are deferred track insertion (`start_track`)
and further calls into `Timeline._schedule_action`. -/
inductive StateOp
  | insertTrack (t : Track) (track_index : Option ℕ)
  | scheduleAction (quantize : Option ℚ) (delay : ℚ) (fn : List StateOp)

/-- The `Action` dataclass: a scheduled time and a callback. -/
structure Action where
  time : ℚ
  function : List StateOp

/-- An output device, reduced to the interface the scheduler consumes:
identity and `ticks_per_beat`. -/
structure Device where
  id : ℕ
  ticks_per_beat : ℕ
  deriving DecidableEq, Repr

/-- Modelled from the spec (`util.make_clock_multiplier` is not among the
sources): a Bresenham-style rate divider carrying a fractional tick
accumulator.  `serial` models the identity of the generator object, so that
"a fresh translator instance" is observable in the model. -/
structure ClockMultiplier where
  ratio : ℚ
  acc : ℚ
  serial : ℕ
  deriving DecidableEq, Repr

/-- One call to `next()` on a clock multiplier: accumulate the ratio and emit
the whole ticks accrued, keeping the fractional debt.  Modelled from the
spec: "translators may accumulate fractional tick debt across calls". -/
def multNext (m : ClockMultiplier) : ℕ × ClockMultiplier :=
  let acc := m.acc + m.ratio
  let n := ⌊acc⌋
  (n.toNat, { m with acc := acc - n })

/-- The scheduler state: the fields of `Timeline` that the verified claims
depend on.  `ticks_per_beat` lives on the clock source in the code and is
read through the `ticks_per_beat` property; `sink_ticks` counts the
`device.tick()` calls each output device has received (instrumentation for
the output-advance phase); `next_serial` and `next_track_id` model the
allocation of fresh Python objects. -/
structure Timeline where
  current_time : ℚ
  ticks_per_beat : ℕ
  tracks : List Track
  actions : List Action
  max_tracks : ℕ
  ignore_exceptions : Bool
  stop_when_done : Bool
  output_devices : List Device
  clock_multipliers : List (ℕ × ClockMultiplier)
  sink_ticks : List (ℕ × ℕ)
  next_serial : ℕ
  next_track_id : ℕ

/-- `Timeline.tick_duration`: `1.0 / self.ticks_per_beat`. -/
def tick_duration (s : Timeline) : ℚ := 1 / (s.ticks_per_beat : ℚ)

/-- `make_clock_multiplier(output.ticks_per_beat, self.ticks_per_beat)`,
stamped with a fresh serial.  Modelled from the spec: the divider's long-run
rate is `device_tpb / timeline_tpb` and its accumulator starts at zero. -/
def make_clock_multiplier (device_tpb timeline_tpb serial : ℕ) : ClockMultiplier :=
  ⟨(device_tpb : ℚ) / (timeline_tpb : ℚ), 0, serial⟩

/-- `Timeline.add_output_device`: append the device and install a freshly
created clock multiplier for it. -/
def add_output_device (s : Timeline) (d : Device) : Timeline :=
  { s with
      output_devices := s.output_devices ++ [d]
      clock_multipliers :=
        dictSet s.clock_multipliers d.id
          (make_clock_multiplier d.ticks_per_beat s.ticks_per_beat s.next_serial)
      next_serial := s.next_serial + 1 }

/-- `Timeline.set_output_device`: clear the device list, then add.  (The
stale multiplier entries are left in the dict, as in the code.) -/
def set_output_device (s : Timeline) (d : Device) : Timeline :=
  add_output_device { s with output_devices := [] } d

/-- The scheduled-time arithmetic of `Timeline._schedule_action` (lines
688-691): quantize up to the next boundary when `quantize` is truthy, then
add the delay. -/
def scheduleActionTime (current_time : ℚ) (quantize : Option ℚ) (delay : ℚ) : ℚ :=
  let scheduled_time :=
    if qTruthy quantize then (quantize.getD 0) * (⌈current_time / quantize.getD 0⌉ : ℤ)
    else current_time
  scheduled_time + delay

/-- `Timeline._schedule_action`: compute the scheduled time and append an
`Action` to `self.actions`. -/
def schedule_action (s : Timeline) (function : List StateOp)
    (quantize : Option ℚ) (delay : ℚ) : Timeline :=
  { s with actions := s.actions ++ [⟨scheduleActionTime s.current_time quantize delay, function⟩] }

/-- `Timeline.unschedule`: `TrackNotFoundException` (modelled as `some`
error) when the track is not scheduled, otherwise remove it. -/
inductive SchedulerErr
  | trackNotFound
  deriving DecidableEq, Repr

def unschedule (s : Timeline) (t : Track) : Option SchedulerErr × Timeline :=
  if t ∈ s.tracks then (none, { s with tracks := s.tracks.erase t })
  else (some .trackNotFound, s)

/-- The loop of `Timeline.clear`: unschedule every track of the snapshot. -/
def clearLoop : List Track → Timeline → Option SchedulerErr × Timeline
  | [], s => (none, s)
  | t :: rest, s =>
    match unschedule s t with
    | (none, s1) => clearLoop rest s1
    | (some e, s1) => (some e, s1)

/-- `Timeline.clear`: iterate a snapshot of `self.tracks` and unschedule each. -/
def clear (s : Timeline) : Option SchedulerErr × Timeline :=
  clearLoop s.tracks s

/-- The firing test of the deferred-action flush (line 270):
`round(action.time, 8) <= round(self.current_time, 8)`. -/
def actionDue (current_time : ℚ) (a : Action) : Bool :=
  decide (round8 a.time ≤ round8 current_time)

/-- State threaded through the deferred-action flush (lines 258-276):
`tracks` is the live `self.tracks`; `aligned` is `aligned_actions`;
`appended` records the actions appended to the live `self.actions` by fired
callbacks (line 276 then overwrites `self.actions` with `aligned`, so these
appends are discarded); `fired` records the actions whose callbacks were
invoked. -/
structure FlushState where
  tracks : List Track
  aligned : List Action
  appended : List Action
  fired : List Action

/-- Apply one callback effect.  `insertTrack` is the deferred `start_track`
(insert at an index, clamping like `list.insert`, or append);
`scheduleAction` is a nested `Timeline._schedule_action` call, which reads
`self.current_time` (unchanged throughout the flush). -/
def applyOp (current_time : ℚ) (st : FlushState) : StateOp → FlushState
  | .insertTrack t idx =>
    { st with
        tracks := match idx with
          | some i => pyInsert st.tracks i t
          | none => st.tracks ++ [t] }
  | .scheduleAction q d fn =>
    { st with appended := st.appended ++ [⟨scheduleActionTime current_time q d, fn⟩] }

/-- The deferred-action flush loop over the snapshot `self.actions[:]`.  A
due action's callback runs synchronously; a non-due action is collected in
`aligned`.  The interleaved `self.actions.remove(action)` calls (line 272)
only mutate the list that line 276 then discards, and no callback in the
model reads `self.actions`, so they are not represented. -/
def flushLoop (current_time : ℚ) : List Action → FlushState → FlushState
  | [], st => st
  | a :: rest, st =>
    if actionDue current_time a then
      let st1 := a.function.foldl (applyOp current_time) st
      flushLoop current_time rest { st1 with fired := st1.fired ++ [a] }
    else
      flushLoop current_time rest { st with aligned := st.aligned ++ [a] }

/-- Result of the flush: the timeline after `self.actions = aligned_actions`
(line 276), plus the instrumentation lists. -/
structure FlushResult where
  state : Timeline
  fired : List Action
  appended : List Action

/-- Lines 258-276 of `Timeline.tick`: flush the due deferred actions. -/
def flushActions (s : Timeline) : FlushResult :=
  let fs := flushLoop s.current_time s.actions ⟨s.tracks, [], [], []⟩
  ⟨{ s with tracks := fs.tracks, actions := fs.aligned }, fs.fired, fs.appended⟩

/-- Errors that can escape `Timeline.tick`. -/
inductive TickErr
  | stopIteration
  | trackFailure (id : ℕ)
  | valueError
  | keyError
  deriving DecidableEq, Repr

/-- `is_finished` right after a tick: the outcome's flag for a normal advance;
a raising advance does not exhaust the generator (spec-modelled), so the
track is not finished. -/
def outcomeFinished : TrackTickOutcome → Bool
  | .ok fin => fin
  | .raises => false

/-- Whether the track-advance loop removes this track from `self.tracks`
during its own iteration: a raising track when `ignore_exceptions` is set
(line 288), or a finished track with `remove_when_done` (line 290). -/
def removable (ignore : Bool) (t : Track) : Bool :=
  match t.outcome with
  | .raises => ignore
  | .ok fin => fin && t.remove_when_done

/-- State threaded through the track-advance loop (lines 280-294): the live
`self.tracks`, the ids of tracks whose `tick()` was invoked, and the pending
exception. -/
structure TPState where
  live : List Track
  ticked : List ℕ
  err : Option TickErr

/-- One iteration of the track-advance loop for track `t`.  When an
exception is pending the loop has been aborted, so the state passes through
unchanged.  On a raise with `ignore_exceptions` unset, the exception
propagates (line 285); with it set, the track is removed (line 288) and the
finished-removal check (line 289) is not taken because a raising advance
leaves the track unfinished (see `outcomeFinished`).  On a normal advance, a
finished track with `remove_when_done` is removed (line 290); `list.remove`
raises `ValueError` when the element is absent. -/
def trackStep (ignore : Bool) (st : TPState) (t : Track) : TPState :=
  if st.err.isSome then st
  else
    let st1 : TPState := { st with ticked := st.ticked ++ [t.id] }
    match t.outcome with
    | .raises =>
      if ignore then
        match pyRemove st1.live t with
        | some l => { st1 with live := l }
        | none => { st1 with err := some .valueError }
      else { st1 with err := some (.trackFailure t.id) }
    | .ok fin =>
      if fin && t.remove_when_done then
        match pyRemove st1.live t with
        | some l => { st1 with live := l }
        | none => { st1 with err := some .valueError }
      else st1

def trackLoop (ignore : Bool) : List Track → TPState → TPState
  | [], st => st
  | t :: rest, st => trackLoop ignore rest (trackStep ignore st t)

/-- Lines 280-294 of `Timeline.tick`: advance every track of the snapshot
`self.tracks[:]`, starting from the live list equal to the snapshot. -/
def trackPhase (tracks : List Track) (ignore : Bool) : TPState :=
  trackLoop ignore tracks ⟨tracks, [], none⟩

/-- One iteration of the output-advance loop (lines 308-313): look the
device's clock multiplier up (`KeyError` when absent), draw the tick count,
call `device.tick()` that many times (counted in `sink_ticks`), and store
the advanced multiplier state back. -/
def outputStep (st : Option TickErr × Timeline) (d : Device) : Option TickErr × Timeline :=
  match st with
  | (some e, s) => (some e, s)
  | (none, s) =>
    match dictGet s.clock_multipliers d.id with
    | none => (some .keyError, s)
    | some m =>
      let nm := multNext m
      (none,
        { s with
            clock_multipliers := dictSet s.clock_multipliers d.id nm.2
            sink_ticks := dictSet s.sink_ticks d.id ((dictGet s.sink_ticks d.id).getD 0 + nm.1) })

/-- Lines 308-313 of `Timeline.tick`: advance every output device. -/
def tickOutputs (s : Timeline) : Option TickErr × Timeline :=
  s.output_devices.foldl outputStep (none, s)

/-- Lines 296-318 of `Timeline.tick`, run after the track-advance phase on
the state it produced: the exhaustion check (`StopIteration` when tracks and
actions are both empty and `stop_when_done` is set), the output-advance
phase, and the clock advance `current_time += tick_duration`. -/
def tickAfterPhase (s2 : Timeline) : Option TickErr × Timeline :=
  if s2.tracks.isEmpty && s2.actions.isEmpty && s2.stop_when_done then
    (some .stopIteration, s2)
  else
    match tickOutputs s2 with
    | (some e, s3) => (some e, s3)
    | (none, s3) => (none, { s3 with current_time := s3.current_time + tick_duration s3 })

/-- `Timeline.tick`.  The beat-boundary debug logging (lines 236-243) and the
note-off flush (lines 249-250, which only touches `Track`-internal note-off
state, external to this model) have no effect on the modelled state.  The
returned timeline is the state as mutated up to the point an exception
escapes (Python exceptions do not roll back). -/
def tick (s : Timeline) : Option TickErr × Timeline :=
  let s1 := (flushActions s).state
  let tp := trackPhase s1.tracks s1.ignore_exceptions
  let s2 := { s1 with tracks := tp.live }
  match tp.err with
  | some e => (some e, s2)
  | none => tickAfterPhase s2

/-- Iterate `tick`, keeping the state regardless of errors. -/
def tickN : ℕ → Timeline → Timeline
  | 0, s => s
  | n + 1, s => tickN n (tick s).2

/-- Every one of the next `n` ticks completes without raising. -/
def ticksComplete : ℕ → Timeline → Bool
  | 0, _ => true
  | n + 1, s => (tick s).1.isNone && ticksComplete n (tick s).2

/-- Errors raised by `Timeline.schedule`: `ValueError` for `replace` without
a name (line 597), `TrackLimitReachedException` (line 609). -/
inductive SchedErr
  | valueError
  | trackLimit
  deriving DecidableEq, Repr

/-- How a call to `Timeline.schedule` returns: an exception, the early
`return existing_track` of the replace branch (line 606), or normal
completion carrying `tracks_list` (lines 649-656: the caller sees a single
track, a list, or `None` according to its length). -/
inductive SchedResult
  | err (e : SchedErr)
  | returned (t : Track)
  | completed (ts : List Track)
  deriving Repr

/-- The inner `start_track` of `Timeline.schedule` (lines 612-620): insert
at `track_index` when given, else append. -/
def start_track (s : Timeline) (track_index : Option ℕ) (t : Track) : Timeline :=
  match track_index with
  | some i => { s with tracks := pyInsert s.tracks i t }
  | none => { s with tracks := s.tracks ++ [t] }

/-- The `for param in params_list2` loop of `Timeline.schedule` (lines
593-647), with `param` reduced to the opaque tag the model gives event
dictionaries.  Faithful to the source's control flow: in the replace branch
the `return existing_track` statement (line 606) is in the loop body,
outside the name-match `if` (lines 599-603), so the first registered track
is returned — updated only if its name matches — and the loop never reaches
the second track; creation is reached only when `self.tracks` is empty.
The `EVENT_ACTION` expansion (lines 543-587) concerns pattern objects
outside this model; modelled params carry no action entry, for which that
code appends `param` unchanged.  `Track` construction plus
`track.update(param, ...)` (lines 635-644) is modelled as a fresh track
recording `param`; `quantize`/`delay`/`count`/`interpolate` flow into the
external `Track.update` and do not affect the registration logic. -/
def scheduleLoop (name : Option String) (replace : Bool) (track_index : Option ℕ)
    (remove_when_done : Bool) :
    List ℕ → Timeline → List Track → SchedResult × Timeline
  | [], s, acc => (.completed acc, s)
  | param :: rest, s, acc =>
    if replace then
      match name with
      | none => (.err .valueError, s)
      | some nm =>
        match s.tracks with
        | t0 :: ts =>
          if t0.name = some nm then
            let t1 := { t0 with params := param }
            (.returned t1, { s with tracks := t1 :: ts })
          else
            (.returned t0, s)
        | [] =>
          if s.max_tracks != 0 && decide (s.max_tracks ≤ s.tracks.length) then
            (.err .trackLimit, s)
          else
            let t : Track := ⟨s.next_track_id, name, param, .ok false, remove_when_done⟩
            let s1 := start_track { s with next_track_id := s.next_track_id + 1 } track_index t
            scheduleLoop name replace track_index remove_when_done rest s1 (acc ++ [t])
    else
      if s.max_tracks != 0 && decide (s.max_tracks ≤ s.tracks.length) then
        (.err .trackLimit, s)
      else
        let t : Track := ⟨s.next_track_id, name, param, .ok false, remove_when_done⟩
        let s1 := start_track { s with next_track_id := s.next_track_id + 1 } track_index t
        scheduleLoop name replace track_index remove_when_done rest s1 (acc ++ [t])

/-- The default `MidiOutputDevice()` lazily created by `schedule` when no
output device is registered.  Modelled from the spec: a MIDI device expects
a 24 PPQN tick; its id stands for the fresh Python object. -/
def defaultMidiDevice : Device := ⟨0, 24⟩

/-- `Timeline.schedule`.  `params` is the list of event dictionaries
(`params_list`), each reduced to an opaque tag; `output_device` is the id of
an explicitly passed device, if any.  Lines 513-519: with no device argument
and no registered device, a default MIDI device is created and registered.
Line 524-525: an empty/absent `params` becomes the single empty dict. -/
def schedule (s : Timeline) (params : List ℕ) (name : Option String) (replace : Bool)
    (track_index : Option ℕ) (remove_when_done : Bool) (output_device : Option ℕ) :
    SchedResult × Timeline :=
  let s0 :=
    if output_device.isNone && s.output_devices.isEmpty then
      add_output_device s defaultMidiDevice
    else s
  let params_list := if params.isEmpty then [0] else params
  scheduleLoop name replace track_index remove_when_done params_list s0 []

/-- The invariant relating registered output devices to clock multipliers:
every registered device has an entry in the multiplier dict, dict keys are
unique, and every installed multiplier was stamped with a serial below the
allocation counter (so a fresh stamp differs from every installed one). -/
def MultOk (s : Timeline) : Prop :=
  (∀ d ∈ s.output_devices, (dictGet s.clock_multipliers d.id).isSome = true)
  ∧ (s.clock_multipliers.map Prod.fst).Nodup
  ∧ ∀ p ∈ s.clock_multipliers, p.2.serial < s.next_serial

/-- A freshly constructed `Timeline` with the default 480 PPQN resolution and
no tracks, actions or devices. -/
def timelineInit : Timeline :=
  ⟨0, 480, [], [], 0, false, false, [], [], [], 0, 0⟩

/-- A quiescent track used in concrete evaluations. -/
def idleTrack : Track := ⟨0, none, 0, .ok false, true⟩

/-- Concrete state for C1: one action due at time 0 whose callback calls
`_schedule_action` with a 5-beat delay. -/
def c1State : Timeline :=
  { timelineInit with actions := [⟨0, [.scheduleAction none 5 []]⟩] }

/-- Concrete states for C2: a single track named "a"; and tracks named "a"
then "b". -/
def c2TrackA : Track := ⟨0, some "a", 7, .ok false, true⟩
def c2TrackB : Track := ⟨1, some "b", 3, .ok false, true⟩
def c2State1 : Timeline := { timelineInit with tracks := [c2TrackA] }
def c2State2 : Timeline := { timelineInit with tracks := [c2TrackA, c2TrackB] }

/-- Concrete tracks and state for C4: a raising track followed by a healthy
one, with the robustness flag enabled. -/
def c4Bad : Track := ⟨10, none, 0, .raises, false⟩
def c4Good : Track := ⟨11, none, 0, .ok false, false⟩
def c4State : Timeline :=
  { timelineInit with tracks := [c4Bad, c4Good], ignore_exceptions := true }

/-- Concrete states for C5: with `stop_when_done`, one with no pending
actions, one with a deferred action still scheduled for beat 10. -/
def c5State : Timeline :=
  { timelineInit with stop_when_done := true, tracks := [idleTrack] }
def c5StateWithAction : Timeline :=
  { timelineInit with
      stop_when_done := true, tracks := [idleTrack], actions := [⟨10, []⟩] }

/-- Concrete state for C6: an empty timeline at 2 ticks per beat. -/
def c6State : Timeline := { timelineInit with ticks_per_beat := 2 }

/-- Concrete device for C7: a 24 PPQN MIDI-style sink. -/
def c7Device : Device := ⟨1, 24⟩

/-- C7 counterexample state: the same device registered twice. -/
def c7State : Timeline := add_output_device (add_output_device timelineInit c7Device) c7Device

/-- Concrete state for C8: one registered track. -/
def c8State : Timeline := { timelineInit with tracks := [idleTrack] }

/-- Concrete state for C10: `stop_when_done` with nothing scheduled, so the
next tick raises the exhaustion signal. -/
def c10State : Timeline := { timelineInit with stop_when_done := true }

lemma round8_natCast (n : ℕ) : round8 (n : ℚ) = n := by
  unfold round8
  have h : (n : ℚ) * 100000000 = ((n * 100000000 : ℕ) : ℚ) := by push_cast; ring
  rw [h, round_natCast]
  push_cast
  field_simp

lemma flushLoop_nil (ct : ℚ) (st : FlushState) : flushLoop ct [] st = st := rfl

lemma flushLoop_cons_due (ct : ℚ) (a : Action) (rest : List Action) (st : FlushState)
    (h : actionDue ct a = true) :
    flushLoop ct (a :: rest) st
      = flushLoop ct rest
          { a.function.foldl (applyOp ct) st with
            fired := (a.function.foldl (applyOp ct) st).fired ++ [a] } := by
  simp [flushLoop, h]

lemma flushLoop_cons_skip (ct : ℚ) (a : Action) (rest : List Action) (st : FlushState)
    (h : actionDue ct a = false) :
    flushLoop ct (a :: rest) st = flushLoop ct rest { st with aligned := st.aligned ++ [a] } := by
  simp [flushLoop, h]

lemma applyOps_fixed (ct : ℚ) (ops : List StateOp) (st : FlushState) :
    (ops.foldl (applyOp ct) st).aligned = st.aligned
    ∧ (ops.foldl (applyOp ct) st).fired = st.fired := by
  induction ops generalizing st with
  | nil => exact ⟨rfl, rfl⟩
  | cons op rest ih =>
    have h := ih (applyOp ct st op)
    cases op <;> simpa [applyOp] using h

lemma flushLoop_spec (ct : ℚ) (acts : List Action) (st : FlushState) :
    (flushLoop ct acts st).fired = st.fired ++ acts.filter (actionDue ct)
    ∧ (flushLoop ct acts st).aligned = st.aligned ++ acts.filter (fun a => !actionDue ct a) := by
  induction acts generalizing st with
  | nil => simp [flushLoop]
  | cons a rest ih =>
    by_cases h : actionDue ct a = true
    · have hops := applyOps_fixed ct a.function st
      have hrec := ih { a.function.foldl (applyOp ct) st with
                        fired := (a.function.foldl (applyOp ct) st).fired ++ [a] }
      rw [flushLoop_cons_due ct a rest st h]
      constructor
      · rw [hrec.1, hops.2]
        simp [List.filter_cons, h]
      · rw [hrec.2, hops.1]
        simp [List.filter_cons, h]
    · rw [Bool.not_eq_true] at h
      have hrec := ih { st with aligned := st.aligned ++ [a] }
      rw [flushLoop_cons_skip ct a rest st h]
      constructor
      · rw [hrec.1]
        simp [List.filter_cons, h]
      · rw [hrec.2]
        simp [List.filter_cons, h]

/-- C1 (amended): during the deferred-action flush of `tick()`, an action of
the snapshot fires exactly when its scheduled time rounded to 8 decimal
places is ≤ `current_time` rounded the same way; the fired snapshot actions
are exactly those removed, and the actions collection afterwards holds
exactly the non-fired snapshot actions — so an action enqueued by a fired
callback during the flush is not retained. -/
theorem claim_C1 (s : Timeline) :
    (flushActions s).fired = s.actions.filter (actionDue s.current_time)
    ∧ (flushActions s).state.actions
        = s.actions.filter (fun a => !actionDue s.current_time a) := by
  have h := flushLoop_spec s.current_time s.actions ⟨s.tracks, [], [], []⟩
  constructor
  · show (flushLoop s.current_time s.actions ⟨s.tracks, [], [], []⟩).fired = _
    rw [h.1]
    rfl
  · show (flushLoop s.current_time s.actions ⟨s.tracks, [], [], []⟩).aligned = _
    rw [h.2]
    rfl

/-- C1 counterexample: in `c1State` the only action is due and its callback
enqueues a new deferred action for beat 5; `tick()` completes without
raising, the enqueued action was appended during the flush, yet the actions
collection is empty when `tick()` completes — the enqueued action was
discarded, refuting the claim that every action enqueued by a fired
callback is still present. -/
theorem claim_C1_counterexample :
    (flushActions c1State).appended.map Action.time = [5]
    ∧ (tick c1State).1 = none
    ∧ (tick c1State).2.actions.length = 0 := by
  have hdue : actionDue (0 : ℚ) ⟨0, [.scheduleAction none 5 []]⟩ = true := by
    simp [actionDue]
  refine ⟨?_, ?_, ?_⟩
  · simp [flushActions, c1State, timelineInit, flushLoop, hdue, applyOp, scheduleActionTime,
      qTruthy]
  · simp [tick, tickAfterPhase, flushActions, c1State, timelineInit, flushLoop, hdue, applyOp,
      trackPhase, trackLoop, tickOutputs]
  · simp [tick, tickAfterPhase, flushActions, c1State, timelineInit, flushLoop, hdue, applyOp,
      trackPhase, trackLoop, tickOutputs]

/-- C3: the deferred-registration start time is
`ceil(current_time / q) * q + d` for truthy quantization `q`, and
`current_time + d` when `q` is absent or zero; with `q = 1` the boundary is
inclusive: any `current_time` in `(0,1)` gives exactly `1`, and
`current_time = 1` also gives `1`.  `_schedule_action` appends exactly this
action to the actions collection. -/
theorem claim_C3 (t d : ℚ) (q : Option ℚ) :
    (∀ qv : ℚ, q = some qv → qv ≠ 0 →
      scheduleActionTime t q d = (⌈t / qv⌉ : ℤ) * qv + d)
    ∧ (qTruthy q = false → scheduleActionTime t q d = t + d)
    ∧ (0 < t → t < 1 → scheduleActionTime t (some 1) 0 = 1)
    ∧ scheduleActionTime 1 (some 1) 0 = 1
    ∧ ∀ (s : Timeline) (fn : List StateOp),
        (schedule_action s fn q d).actions
          = s.actions ++ [⟨scheduleActionTime s.current_time q d, fn⟩] := by
  refine ⟨?_, ?_, ?_, ?_, ?_⟩
  · intro qv hq hnz
    subst hq
    have ht : qTruthy (some qv) = true := by simp [qTruthy, hnz]
    unfold scheduleActionTime
    simp only [ht, if_true, Option.getD_some]
    ring
  · intro h
    unfold scheduleActionTime
    simp [h]
  · intro h0 h1
    have ht : qTruthy (some (1 : ℚ)) = true := by simp [qTruthy]
    have hc : (⌈t⌉ : ℤ) = 1 := Int.ceil_eq_iff.mpr ⟨by norm_num [h0], h1.le⟩
    unfold scheduleActionTime
    simp [ht, hc]
  · have ht : qTruthy (some (1 : ℚ)) = true := by simp [qTruthy]
    unfold scheduleActionTime
    simp [ht]
  · intro s fn
    rfl

/-- C3 witness: at `current_time = 1/2`, quantization `1`, delay `0`, the
hypotheses hold and the scheduled time is the ceiling formula, which
evaluates to exactly `1`. -/
theorem claim_C3_witness :
    ((1 : ℚ) ≠ 0 ∧ (0 : ℚ) < 1 / 2 ∧ (1 / 2 : ℚ) < 1)
    ∧ scheduleActionTime (1 / 2) (some 1) 0 = (⌈(1 / 2 : ℚ) / 1⌉ : ℤ) * 1 + 0
    ∧ scheduleActionTime (1 / 2) (some 1) 0 = 1 := by
  refine ⟨⟨by norm_num, by norm_num, by norm_num⟩, ?_, ?_⟩
  · exact (claim_C3 (1 / 2) 0 (some 1)).1 1 rfl (by norm_num)
  · exact (claim_C3 (1 / 2) 0 (some 1)).2.2.1 (by norm_num) (by norm_num)

/-- C8: `unschedule` on a track not in the live collection raises
`TrackNotFoundException` and leaves the state unchanged (it never silently
succeeds); on a registered track it succeeds and removes it. -/
theorem claim_C8 (s : Timeline) (t : Track) :
    (t ∉ s.tracks → unschedule s t = (some .trackNotFound, s))
    ∧ (t ∈ s.tracks →
        (unschedule s t).1 = none
        ∧ (unschedule s t).2.tracks = s.tracks.erase t
        ∧ (s.tracks.Nodup → t ∉ (unschedule s t).2.tracks)) := by
  constructor
  · intro h
    unfold unschedule
    simp [h]
  · intro h
    refine ⟨?_, ?_, ?_⟩
    · unfold unschedule; simp [h]
    · unfold unschedule; simp [h]
    · intro hnd
      unfold unschedule
      simp only [h, if_true]
      intro hmem
      exact absurd ((hnd.mem_erase_iff).mp hmem).1 (by simp)

/-- C8 witness: `idleTrack` is registered in `c8State` and gets removed; it
is not registered in the fresh timeline, where `unschedule` raises the
not-found error. -/
theorem claim_C8_witness :
    (idleTrack ∈ c8State.tracks
      ∧ (unschedule c8State idleTrack).1 = none
      ∧ idleTrack ∉ (unschedule c8State idleTrack).2.tracks)
    ∧ (idleTrack ∉ timelineInit.tracks
      ∧ unschedule timelineInit idleTrack = (some .trackNotFound, timelineInit)) := by
  refine ⟨⟨by decide, ?_, ?_⟩, ⟨by decide, ?_⟩⟩
  · exact ((claim_C8 c8State idleTrack).2 (by decide)).1
  · exact ((claim_C8 c8State idleTrack).2 (by decide)).2.2 (by decide)
  · exact (claim_C8 timelineInit idleTrack).1 (by decide)

lemma trackLoop_frozen (ignore : Bool) (rest : List Track) (st : TPState)
    (h : st.err.isSome = true) : trackLoop ignore rest st = st := by
  induction rest with
  | nil => rfl
  | cons t r ih =>
    show trackLoop ignore r (trackStep ignore st t) = st
    rw [show trackStep ignore st t = st by unfold trackStep; simp [h]]
    exact ih

lemma trackStep_norm (ignore : Bool) (st : TPState) (t : Track)
    (herr : st.err = none) (hmem : t ∈ st.live)
    (h : t.outcome = .raises → ignore = true) :
    trackStep ignore st t
      = ⟨if removable ignore t then st.live.erase t else st.live,
         st.ticked ++ [t.id], none⟩ := by
  obtain ⟨live, ticked, err⟩ := st
  change err = none at herr
  subst herr
  change t ∈ live at hmem
  unfold trackStep
  simp only [Option.isSome_none, Bool.false_eq_true, if_false]
  cases houtcome : t.outcome with
  | raises =>
    have hig : ignore = true := h houtcome
    subst hig
    simp only [pyRemove, hmem, if_true, removable, houtcome]
  | ok fin =>
    simp only [removable, houtcome]
    by_cases hrw : (fin && t.remove_when_done) = true
    · simp only [hrw, if_true, pyRemove, hmem]
    · rw [Bool.not_eq_true] at hrw
      simp only [hrw, Bool.false_eq_true, if_false]

lemma trackLoop_ok (rest : List Track) (st : TPState)
    (herr : st.err = none)
    (hsub : ∀ t ∈ rest, t ∈ st.live)
    (hndR : rest.Nodup) (hndL : st.live.Nodup) :
    (trackLoop true rest st).err = none
    ∧ (trackLoop true rest st).live.Nodup
    ∧ (trackLoop true rest st).ticked = st.ticked ++ rest.map (fun t => t.id)
    ∧ ∀ v, v ∈ (trackLoop true rest st).live
        ↔ (v ∈ st.live ∧ (v ∈ rest → removable true v = false)) := by
  induction rest generalizing st with
  | nil =>
    refine ⟨herr, hndL, by simp [trackLoop], fun v => by simp [trackLoop]⟩
  | cons t r ih =>
    have hmem : t ∈ st.live := hsub t (by simp)
    have hstep := trackStep_norm true st t herr hmem (fun _ => rfl)
    have hndR1 : r.Nodup := hndR.of_cons
    have htnotr : t ∉ r := (List.nodup_cons.mp hndR).1
    rw [show trackLoop true (t :: r) st = trackLoop true r (trackStep true st t) from rfl, hstep]
    by_cases hrem : removable true t = true
    · rw [if_pos hrem]
      have hsub1 : ∀ u ∈ r, u ∈ st.live.erase t := by
        intro u hu
        have hne : u ≠ t := fun he => htnotr (he ▸ hu)
        exact (List.mem_erase_of_ne hne).mpr (hsub u (by simp [hu]))
      have h4 := ih ⟨st.live.erase t, st.ticked ++ [t.id], none⟩ rfl hsub1 hndR1 (hndL.erase t)
      refine ⟨h4.1, h4.2.1, ?_, ?_⟩
      · rw [h4.2.2.1]; simp
      · intro v
        rw [h4.2.2.2 v]
        constructor
        · rintro ⟨hv1, hv2⟩
          have hvmem := (hndL.mem_erase_iff.mp hv1).2
          have hvt := (hndL.mem_erase_iff.mp hv1).1
          refine ⟨hvmem, fun hvc => ?_⟩
          rcases List.mem_cons.mp hvc with he | hr2
          · exact absurd he hvt
          · exact hv2 hr2
        · rintro ⟨hv1, hv2⟩
          have hvt : v ≠ t := by
            intro he
            subst he
            rw [hv2 (by simp)] at hrem
            cases hrem
          exact ⟨(List.mem_erase_of_ne hvt).mpr hv1, fun hr2 => hv2 (by simp [hr2])⟩
    · rw [if_neg hrem]
      rw [Bool.not_eq_true] at hrem
      have hsub1 : ∀ u ∈ r, u ∈ st.live := fun u hu => hsub u (by simp [hu])
      have h4 := ih ⟨st.live, st.ticked ++ [t.id], none⟩ rfl hsub1 hndR1 hndL
      refine ⟨h4.1, h4.2.1, ?_, ?_⟩
      · rw [h4.2.2.1]; simp
      · intro v
        rw [h4.2.2.2 v]
        constructor
        · rintro ⟨hv1, hv2⟩
          refine ⟨hv1, fun hvc => ?_⟩
          rcases List.mem_cons.mp hvc with he | hr2
          · exact he ▸ hrem
          · exact hv2 hr2
        · rintro ⟨hv1, hv2⟩
          exact ⟨hv1, fun hr2 => hv2 (by simp [hr2])⟩

lemma trackPhase_ok (tracks : List Track) (hnd : tracks.Nodup) :
    (trackPhase tracks true).err = none
    ∧ (trackPhase tracks true).live.Nodup
    ∧ (trackPhase tracks true).ticked = tracks.map (fun t => t.id)
    ∧ ∀ v, v ∈ (trackPhase tracks true).live ↔ v ∈ tracks ∧ removable true v = false := by
  have h := trackLoop_ok tracks ⟨tracks, [], none⟩ rfl (fun t ht => ht) hnd hnd
  unfold trackPhase
  refine ⟨h.1, h.2.1, by simpa using h.2.2.1, fun v => ?_⟩
  rw [h.2.2.2 v]
  constructor
  · rintro ⟨h1, h2⟩; exact ⟨h1, h2 h1⟩
  · rintro ⟨h1, h2⟩; exact ⟨h1, fun _ => h2⟩

lemma trackLoop_raise (rest : List Track) (st : TPState)
    (herr : st.err = none)
    (hsub : ∀ t ∈ rest, t ∈ st.live)
    (hndR : rest.Nodup) (hndL : st.live.Nodup)
    (hx : ∃ t ∈ rest, t.outcome = .raises) :
    ∃ u ∈ rest, u.outcome = .raises
      ∧ (trackLoop false rest st).err = some (.trackFailure u.id) := by
  induction rest generalizing st with
  | nil => rcases hx with ⟨t, ht, _⟩; cases ht
  | cons t r ih =>
    by_cases hr : t.outcome = .raises
    · have hstep : trackStep false st t
          = { st with ticked := st.ticked ++ [t.id], err := some (.trackFailure t.id) } := by
        obtain ⟨live, ticked, err⟩ := st
        change err = none at herr
        subst herr
        unfold trackStep
        simp only [Option.isSome_none, Bool.false_eq_true, if_false, hr]
      refine ⟨t, by simp, hr, ?_⟩
      rw [show trackLoop false (t :: r) st = trackLoop false r (trackStep false st t) from rfl,
        hstep]
      rw [trackLoop_frozen false r _ (by simp)]
    · have hmem : t ∈ st.live := hsub t (by simp)
      have hstep := trackStep_norm false st t herr hmem (fun hc => absurd hc hr)
      have hndR1 : r.Nodup := hndR.of_cons
      have htnotr : t ∉ r := (List.nodup_cons.mp hndR).1
      rcases hx with ⟨u0, hu0c, hu0r⟩
      have hu0 : u0 ∈ r := by
        rcases List.mem_cons.mp hu0c with he | hr2
        · exact absurd (he ▸ hu0r) hr
        · exact hr2
      rw [show trackLoop false (t :: r) st = trackLoop false r (trackStep false st t) from rfl,
        hstep]
      by_cases hrem : removable false t = true
      · rw [if_pos hrem]
        have hsub1 : ∀ u ∈ r, u ∈ st.live.erase t := by
          intro u hu
          have hne : u ≠ t := fun he => htnotr (he ▸ hu)
          exact (List.mem_erase_of_ne hne).mpr (hsub u (by simp [hu]))
        rcases ih ⟨st.live.erase t, st.ticked ++ [t.id], none⟩ rfl hsub1 hndR1 (hndL.erase t)
            ⟨u0, hu0, hu0r⟩ with ⟨u, hur, hu2, herr2⟩
        exact ⟨u, by simp [hur], hu2, herr2⟩
      · rw [if_neg hrem]
        have hsub1 : ∀ u ∈ r, u ∈ st.live := fun u hu => hsub u (by simp [hu])
        rcases ih ⟨st.live, st.ticked ++ [t.id], none⟩ rfl hsub1 hndR1 hndL
            ⟨u0, hu0, hu0r⟩ with ⟨u, hur, hu2, herr2⟩
        exact ⟨u, by simp [hur], hu2, herr2⟩

lemma flush_state_nil (s : Timeline) (h : s.actions = []) : (flushActions s).state = s := by
  obtain ⟨ct, tpb, tr, ac, mt, ig, swd, od, cm, stk, ns, nt⟩ := s
  change ac = [] at h
  subst h
  rfl

lemma tick_of_err (s : Timeline) (e : TickErr)
    (h : (trackPhase (flushActions s).state.tracks (flushActions s).state.ignore_exceptions).err
          = some e) :
    tick s = (some e,
      { (flushActions s).state with
        tracks := (trackPhase (flushActions s).state.tracks
                    (flushActions s).state.ignore_exceptions).live }) := by
  simp only [tick]
  rw [h]

lemma tick_of_none (s : Timeline)
    (h : (trackPhase (flushActions s).state.tracks (flushActions s).state.ignore_exceptions).err
          = none) :
    tick s = tickAfterPhase
      { (flushActions s).state with
        tracks := (trackPhase (flushActions s).state.tracks
                    (flushActions s).state.ignore_exceptions).live } := by
  simp only [tick]
  rw [h]

lemma outputStep_fields (p : Option TickErr × Timeline) (d : Device) :
    (outputStep p d).2.tracks = p.2.tracks
    ∧ (outputStep p d).2.actions = p.2.actions
    ∧ (outputStep p d).2.current_time = p.2.current_time
    ∧ (outputStep p d).2.ticks_per_beat = p.2.ticks_per_beat := by
  rcases p with ⟨e, s⟩
  cases e with
  | some e0 => exact ⟨rfl, rfl, rfl, rfl⟩
  | none =>
    unfold outputStep
    rcases hd : dictGet s.clock_multipliers d.id with _ | m <;> simp [hd]

lemma outputFold_fields (devs : List Device) (p : Option TickErr × Timeline) :
    (devs.foldl outputStep p).2.tracks = p.2.tracks
    ∧ (devs.foldl outputStep p).2.actions = p.2.actions
    ∧ (devs.foldl outputStep p).2.current_time = p.2.current_time
    ∧ (devs.foldl outputStep p).2.ticks_per_beat = p.2.ticks_per_beat := by
  induction devs generalizing p with
  | nil => exact ⟨rfl, rfl, rfl, rfl⟩
  | cons d r ih =>
    have h1 := outputStep_fields p d
    have h2 := ih (outputStep p d)
    simp only [List.foldl_cons]
    exact ⟨h2.1.trans h1.1, h2.2.1.trans h1.2.1, h2.2.2.1.trans h1.2.2.1,
      h2.2.2.2.trans h1.2.2.2⟩

lemma outputFold_err (devs : List Device) (p : Option TickErr × Timeline) (e : TickErr)
    (h : (devs.foldl outputStep p).1 = some e) :
    p.1 = some e ∨ e = .keyError := by
  induction devs generalizing p with
  | nil => exact Or.inl h
  | cons d r ih =>
    rcases ih (outputStep p d) (by simpa using h) with h1 | h2
    · rcases p with ⟨pe, s⟩
      cases pe with
      | some e0 => exact Or.inl (by simpa [outputStep] using h1)
      | none =>
        right
        rcases hd : dictGet s.clock_multipliers d.id with _ | m
        · simp [outputStep, hd] at h1
          exact h1.symm
        · simp [outputStep, hd] at h1
    · exact Or.inr h2

lemma tickOutputs_err (s : Timeline) (e : TickErr) (h : (tickOutputs s).1 = some e) :
    e = .keyError := by
  rcases outputFold_err s.output_devices (none, s) e h with h1 | h2
  · cases h1
  · exact h2

lemma tickOutputs_fields (s : Timeline) :
    (tickOutputs s).2.tracks = s.tracks
    ∧ (tickOutputs s).2.actions = s.actions
    ∧ (tickOutputs s).2.current_time = s.current_time
    ∧ (tickOutputs s).2.ticks_per_beat = s.ticks_per_beat :=
  outputFold_fields s.output_devices (none, s)

lemma tickAfterPhase_stop (X : Timeline) (h1 : X.tracks = []) (h2 : X.actions = [])
    (h3 : X.stop_when_done = true) : tickAfterPhase X = (some .stopIteration, X) := by
  unfold tickAfterPhase
  rw [if_pos (by simp [h1, h2, h3])]

lemma tickAfterPhase_tracks (X : Timeline) : (tickAfterPhase X).2.tracks = X.tracks := by
  unfold tickAfterPhase
  split
  · rfl
  · rcases hout : tickOutputs X with ⟨oe, s3⟩
    have h3 : s3.tracks = X.tracks := by
      have h := (tickOutputs_fields X).1
      rw [hout] at h
      exact h
    cases oe <;> simpa using h3

lemma tick_time_fields (s : Timeline) :
    ((tick s).1 = none → (tick s).2.current_time = s.current_time + tick_duration s)
    ∧ ((tick s).1 ≠ none → (tick s).2.current_time = s.current_time)
    ∧ (tick s).2.ticks_per_beat = s.ticks_per_beat := by
  cases htp : (trackPhase (flushActions s).state.tracks
      (flushActions s).state.ignore_exceptions).err with
  | some e0 =>
    rw [tick_of_err s e0 htp]
    exact ⟨(by intro h; cases h), fun _ => rfl, rfl⟩
  | none =>
    rw [tick_of_none s htp]
    set X : Timeline :=
      { (flushActions s).state with
        tracks := (trackPhase (flushActions s).state.tracks
                    (flushActions s).state.ignore_exceptions).live } with hX
    have hXt : X.current_time = s.current_time := rfl
    have hXr : X.ticks_per_beat = s.ticks_per_beat := rfl
    unfold tickAfterPhase
    split
    · exact ⟨(by intro h; cases h), fun _ => hXt, hXr⟩
    · rcases hout : tickOutputs X with ⟨oe, s3⟩
      have h3t : s3.current_time = X.current_time := by
        have h := (tickOutputs_fields X).2.2.1
        rw [hout] at h
        exact h
      have h3r : s3.ticks_per_beat = X.ticks_per_beat := by
        have h := (tickOutputs_fields X).2.2.2
        rw [hout] at h
        exact h
      cases oe with
      | some e1 => exact ⟨(by intro h; cases h), fun _ => h3t.trans hXt, h3r.trans hXr⟩
      | none =>
        refine ⟨fun _ => ?_, fun hne => absurd rfl hne, h3r.trans hXr⟩
        show s3.current_time + tick_duration s3 = s.current_time + tick_duration s
        rw [h3t, hXt]
        unfold tick_duration
        rw [h3r, hXr]

/-- C10: whenever `tick()` raises the exhaustion signal or a propagated
track-advance failure, the invocation leaves `current_time` unchanged and no
output sink receives a tick: the clock-advance and output-advance phases run
only in completing invocations. -/
theorem claim_C10 (s : Timeline) (e : TickErr)
    (h : (tick s).1 = some e)
    (he : e = .stopIteration ∨ ∃ j, e = .trackFailure j) :
    (tick s).2.current_time = s.current_time
    ∧ (tick s).2.sink_ticks = s.sink_ticks := by
  cases htp : (trackPhase (flushActions s).state.tracks
      (flushActions s).state.ignore_exceptions).err with
  | some e0 =>
    rw [tick_of_err s e0 htp]
    exact ⟨rfl, rfl⟩
  | none =>
    rw [tick_of_none s htp] at h ⊢
    set X : Timeline :=
      { (flushActions s).state with
        tracks := (trackPhase (flushActions s).state.tracks
                    (flushActions s).state.ignore_exceptions).live } with hX
    unfold tickAfterPhase at h ⊢
    split at h
    · next hex =>
      rw [if_pos hex]
      exact ⟨rfl, rfl⟩
    · next hex =>
      rw [if_neg hex]
      rcases hout : tickOutputs X with ⟨oe, s3⟩
      rw [hout] at h
      cases oe with
      | some e1 =>
        have he1 : e1 = e := by simpa using h
        have hkey : e1 = .keyError := tickOutputs_err X e1 (by rw [hout])
        rw [he1] at hkey
        subst hkey
        rcases he with h1 | ⟨j, hj⟩
        · exact absurd h1 (by simp)
        · exact absurd hj (by simp)
      | none => cases h

/-- C10 witness: a timeline with `stop_when_done` and nothing scheduled
raises the exhaustion signal, and the theorem applies: time and sink tick
counts are untouched. -/
theorem claim_C10_witness :
    (tick c10State).1 = some .stopIteration
    ∧ ((tick c10State).2.current_time = c10State.current_time
       ∧ (tick c10State).2.sink_ticks = c10State.sink_ticks) := by
  have h : (tick c10State).1 = some .stopIteration := by decide
  exact ⟨h, claim_C10 c10State .stopIteration h (Or.inl rfl)⟩

lemma ticksN_time (N : ℕ) (s : Timeline) (hR : 0 < s.ticks_per_beat)
    (hc : ticksComplete N s = true) :
    (tickN N s).current_time = s.current_time + (N : ℚ) / (s.ticks_per_beat : ℚ) := by
  induction N generalizing s with
  | zero => simp [tickN]
  | succ n ih =>
    have hc1 : (tick s).1.isNone = true ∧ ticksComplete n (tick s).2 = true := by
      simpa [ticksComplete, Bool.and_eq_true] using hc
    have h1 : (tick s).1 = none := Option.isNone_iff_eq_none.mp hc1.1
    have ht := tick_time_fields s
    have htpb : (tick s).2.ticks_per_beat = s.ticks_per_beat := ht.2.2
    have hR2 : 0 < (tick s).2.ticks_per_beat := htpb ▸ hR
    have hrec := ih (tick s).2 hR2 hc1.2
    show (tickN n (tick s).2).current_time = _
    rw [hrec, htpb, ht.1 h1]
    have hne : ((s.ticks_per_beat : ℚ)) ≠ 0 := Nat.cast_ne_zero.mpr hR.ne'
    unfold tick_duration
    push_cast
    field_simp
    ring

/-- C6: a completing `tick()` advances `current_time` by exactly
`tick_duration = 1 / ticks_per_beat`; after `N` completed ticks the time has
advanced by exactly `N / ticks_per_beat` (so from 0 it equals `N/R`
exactly, the model using exact rationals in place of floats); and no
`tick()` invocation ever decreases `current_time`. -/
theorem claim_C6 (s : Timeline) (N : ℕ) (hR : 0 < s.ticks_per_beat)
    (hc : ticksComplete N s = true) :
    ((tick s).1 = none → (tick s).2.current_time = s.current_time + tick_duration s)
    ∧ (tickN N s).current_time = s.current_time + (N : ℚ) / (s.ticks_per_beat : ℚ)
    ∧ ∀ u : Timeline, u.current_time ≤ (tick u).2.current_time := by
  refine ⟨(tick_time_fields s).1, ticksN_time N s hR hc, fun u => ?_⟩
  cases h : (tick u).1 with
  | none =>
    rw [(tick_time_fields u).1 h]
    have : 0 ≤ tick_duration u := by
      unfold tick_duration
      positivity
    linarith
  | some e =>
    rw [(tick_time_fields u).2.1 (by simp [h])]

/-- C6 witness: three ticks of an empty 2 PPQN timeline all complete, and
time lands exactly on `0 + 3/2`. -/
theorem claim_C6_witness :
    (0 < c6State.ticks_per_beat ∧ ticksComplete 3 c6State = true)
    ∧ (tickN 3 c6State).current_time
        = c6State.current_time + (3 : ℚ) / (c6State.ticks_per_beat : ℚ) :=
  ⟨⟨by decide, by decide⟩, (claim_C6 c6State 3 (by decide) (by decide)).2.1⟩

lemma clearLoop_all (l : List Track) : ∀ (s : Timeline), s.tracks = l →
    clearLoop l s = (none, { s with tracks := [] }) := by
  induction l with
  | nil =>
    intro s h
    obtain ⟨ct, tpb, tr, ac, mt, ig, swd, od, cm, stk, ns, nt⟩ := s
    change tr = [] at h
    subst h
    rfl
  | cons t r ih =>
    intro s h
    have hmem : t ∈ s.tracks := by rw [h]; simp
    show clearLoop (t :: r) s = _
    unfold clearLoop unschedule
    rw [if_pos hmem]
    show clearLoop r { s with tracks := s.tracks.erase t } = _
    have herase : s.tracks.erase t = r := by
      rw [h]
      exact List.erase_cons_head t r
    rw [herase]
    exact ih { s with tracks := r } rfl

lemma tick_stop (s : Timeline) (h1 : s.tracks = []) (h2 : s.actions = [])
    (h3 : s.stop_when_done = true) : (tick s).1 = some .stopIteration := by
  have hf := flush_state_nil s h2
  have htp : (trackPhase (flushActions s).state.tracks
      (flushActions s).state.ignore_exceptions).err = none := by
    rw [hf, h1]
    rfl
  rw [tick_of_none s htp]
  have hX1 : ({ (flushActions s).state with
      tracks := (trackPhase (flushActions s).state.tracks
                  (flushActions s).state.ignore_exceptions).live }).tracks = [] := by
    show (trackPhase (flushActions s).state.tracks
      (flushActions s).state.ignore_exceptions).live = []
    rw [hf, h1]
    rfl
  have hX2 : ({ (flushActions s).state with
      tracks := (trackPhase (flushActions s).state.tracks
                  (flushActions s).state.ignore_exceptions).live }).actions = [] := by
    show (flushActions s).state.actions = []
    rw [hf]
    exact h2
  have hX3 : ({ (flushActions s).state with
      tracks := (trackPhase (flushActions s).state.tracks
                  (flushActions s).state.ignore_exceptions).live }).stop_when_done = true := by
    show (flushActions s).state.stop_when_done = true
    rw [hf]
    exact h3
  rw [tickAfterPhase_stop _ hX1 hX2 hX3]

/-- C5 (amended): after `clear()` the live track collection is always empty;
and when additionally the deferred-action collection is empty, a `tick()`
invoked immediately after `clear()` with `stop_when_done` set raises the
distinguished exhaustion signal (`StopIteration`), not a generic failure. -/
theorem claim_C5 (s : Timeline) (hswd : s.stop_when_done = true) (hact : s.actions = []) :
    (clear s).2.tracks = [] ∧ (tick (clear s).2).1 = some .stopIteration := by
  have hc := clearLoop_all s.tracks s rfl
  unfold clear
  rw [hc]
  exact ⟨rfl, tick_stop _ rfl hact hswd⟩

/-- C5 witness: a timeline with one track, `stop_when_done` set and no
pending actions: `clear()` empties the track list and the following tick
raises the exhaustion signal. -/
theorem claim_C5_witness :
    (c5State.stop_when_done = true ∧ c5State.actions = [])
    ∧ ((clear c5State).2.tracks = [] ∧ (tick (clear c5State).2).1 = some .stopIteration) :=
  ⟨⟨rfl, rfl⟩, claim_C5 c5State rfl rfl⟩

/-- C5 counterexample: with a deferred action still pending for beat 10,
`tick()` immediately after `clear()` does not signal exhaustion even though
`stop_when_done` is set — refuting the claim for every scheduler state. -/
theorem claim_C5_counterexample :
    c5StateWithAction.stop_when_done = true
    ∧ (clear c5StateWithAction).2.tracks = []
    ∧ (tick (clear c5StateWithAction).2).1 = none := by
  have h10 : round8 (10 : ℚ) = 10 := by
    have h := round8_natCast 10
    push_cast at h
    exact h
  have h0 : round8 (0 : ℚ) = 0 := by
    have h := round8_natCast 0
    push_cast at h
    exact h
  have hdue : actionDue (0 : ℚ) ⟨10, []⟩ = false := by
    simp only [actionDue, decide_eq_false_iff_not]
    rw [h10, h0]
    norm_num
  have hclear : clear c5StateWithAction
      = (none, { c5StateWithAction with tracks := [] }) := clearLoop_all _ _ rfl
  refine ⟨rfl, ?_, ?_⟩
  · rw [hclear]
  · rw [hclear]
    simp [tick, tickAfterPhase, flushActions, flushLoop, hdue, trackPhase, trackLoop,
      tickOutputs, c5StateWithAction, timelineInit]

/-- C2 (code evaluated at the failing input): with `replace=True` and
`name="b"`, on a timeline whose only track is named "a" `schedule` returns
that track unchanged — no update, no creation, no insertion, although no
track named "b" exists; with tracks named "a" then "b", it still returns
the first track "a" unchanged and never updates the matching track "b".
The `return existing_track` (line 606) is inside the `for` loop but outside
the name-match `if`, so the first iteration always returns. -/
theorem claim_C2_eval :
    schedule c2State1 [5] (some "b") true none true (some 1)
      = (.returned c2TrackA, c2State1)
    ∧ schedule c2State2 [5] (some "b") true none true (some 1)
      = (.returned c2TrackA, c2State2) := by
  constructor <;> rfl

/-- C9: `schedule` with `replace` set and no name raises `ValueError`
synchronously, and registers no track: the track collection is unchanged. -/
theorem claim_C9 (s : Timeline) (params : List ℕ) (track_index : Option ℕ)
    (remove_when_done : Bool) (output_device : Option ℕ) :
    (schedule s params none true track_index remove_when_done output_device).1
      = .err .valueError
    ∧ (schedule s params none true track_index remove_when_done output_device).2.tracks
      = s.tracks := by
  have hloop : ∀ (p : ℕ) (rest : List ℕ) (s1 : Timeline) (acc : List Track),
      scheduleLoop none true track_index remove_when_done (p :: rest) s1 acc
        = (.err .valueError, s1) := fun p rest s1 acc => rfl
  have hdev : (if output_device.isNone && s.output_devices.isEmpty
      then add_output_device s defaultMidiDevice else s).tracks = s.tracks := by
    split
    · simp [add_output_device]
    · rfl
  cases params with
  | nil =>
    unfold schedule
    rw [show (List.isEmpty ([] : List ℕ)) = true from rfl]
    rw [show (if (true : Bool) then [0] else ([] : List ℕ)) = [0] from rfl]
    rw [hloop]
    exact ⟨rfl, hdev⟩
  | cons p rest =>
    unfold schedule
    rw [show (List.isEmpty (p :: rest)) = false from rfl]
    rw [show (if (false : Bool) then [0] else (p :: rest)) = p :: rest from rfl]
    rw [hloop]
    exact ⟨rfl, hdev⟩

/-- C4: when a track's per-tick advance raises during the track-advance
phase of `tick()` (modelled here with an empty action queue, so the phase
snapshot is exactly `s.tracks`): with `ignore_exceptions` unset the failure
propagates out of `tick()` (as the failure of the first raising track); with
it set, the phase completes without an exception, every track of the
snapshot is still advanced in that same tick, exactly the raising tracks
and the finished removable tracks leave the collection — in particular the
failing track is removed — and every surviving track is advanced again by
the next tick's phase. -/
theorem claim_C4 (s : Timeline) (t : Track)
    (hmem : t ∈ s.tracks) (hr : t.outcome = .raises)
    (hnd : s.tracks.Nodup) (hact : s.actions = []) :
    (s.ignore_exceptions = false →
      ∃ u ∈ s.tracks, u.outcome = .raises ∧ (tick s).1 = some (.trackFailure u.id))
    ∧ (s.ignore_exceptions = true →
      (trackPhase s.tracks true).err = none
      ∧ t ∉ (tick s).2.tracks
      ∧ (trackPhase s.tracks true).ticked = s.tracks.map (fun u => u.id)
      ∧ (∀ v, v ∈ (tick s).2.tracks ↔ v ∈ s.tracks ∧ removable true v = false)
      ∧ ∀ v ∈ (tick s).2.tracks,
          v.id ∈ (trackPhase (tick s).2.tracks true).ticked) := by
  have hf := flush_state_nil s hact
  constructor
  · intro hig
    rcases trackLoop_raise s.tracks ⟨s.tracks, [], none⟩ rfl (fun u hu => hu) hnd hnd
        ⟨t, hmem, hr⟩ with ⟨u, hu1, hu2, hu3⟩
    refine ⟨u, hu1, hu2, ?_⟩
    have htp : (trackPhase (flushActions s).state.tracks
        (flushActions s).state.ignore_exceptions).err = some (.trackFailure u.id) := by
      rw [hf, hig]
      exact hu3
    rw [tick_of_err s _ htp]
  · intro hig
    have hok := trackPhase_ok s.tracks hnd
    have htp0 : (trackPhase (flushActions s).state.tracks
        (flushActions s).state.ignore_exceptions).err = none := by
      rw [hf, hig]
      exact hok.1
    have htracks : (tick s).2.tracks = (trackPhase s.tracks true).live := by
      rw [tick_of_none s htp0, tickAfterPhase_tracks]
      show (trackPhase (flushActions s).state.tracks
        (flushActions s).state.ignore_exceptions).live = _
      rw [hf, hig]
    refine ⟨hok.1, ?_, hok.2.2.1, ?_, ?_⟩
    · rw [htracks]
      intro hmem2
      rcases (hok.2.2.2 t).mp hmem2 with ⟨_, hrem⟩
      simp [removable, hr] at hrem
    · intro v
      rw [htracks]
      exact hok.2.2.2 v
    · intro v hv
      rw [htracks] at hv ⊢
      have h2 := trackPhase_ok ((trackPhase s.tracks true).live) hok.2.1
      rw [h2.2.2.1]
      exact List.mem_map_of_mem _ hv

/-- C4 witness: with the robustness flag set, ticking a timeline holding a
raising track followed by a healthy one removes exactly the raising track
and keeps the healthy one advancing. -/
theorem claim_C4_witness :
    (c4Bad ∈ c4State.tracks ∧ c4Bad.outcome = .raises ∧ c4State.tracks.Nodup
      ∧ c4State.actions = [] ∧ c4State.ignore_exceptions = true)
    ∧ (c4Bad ∉ (tick c4State).2.tracks ∧ c4Good ∈ (tick c4State).2.tracks) := by
  have h := claim_C4 c4State c4Bad (by decide) rfl (by decide) rfl
  have h2 := h.2 rfl
  exact ⟨⟨by decide, rfl, by decide, rfl, rfl⟩,
    h2.2.1, (h2.2.2.2.1 c4Good).mpr ⟨by decide, by decide⟩⟩

lemma mapReplace_fst {α : Type} (d : List (ℕ × α)) (k : ℕ) (v : α) :
    (d.map (fun p => if p.1 = k then (k, v) else p)).map Prod.fst = d.map Prod.fst := by
  induction d with
  | nil => rfl
  | cons p rest ih =>
    by_cases hp : p.1 = k
    · simp [hp, ih]
    · simp [hp, ih]

lemma dictGet_map_replace {α : Type} (d : List (ℕ × α)) (k : ℕ) (v : α)
    (h : (dictGet d k).isSome = true) :
    dictGet (d.map (fun p => if p.1 = k then (k, v) else p)) k = some v := by
  induction d with
  | nil => simp [dictGet] at h
  | cons p rest ih =>
    by_cases hp : p.1 = k
    · simp [dictGet, hp]
    · simp only [dictGet, hp, if_false] at h
      have hrec := ih h
      simpa [dictGet, hp] using hrec

lemma dictGet_append_single {α : Type} (d : List (ℕ × α)) (k : ℕ) (v : α) :
    dictGet (d ++ [(k, v)]) k = some ((dictGet d k).getD v) := by
  induction d with
  | nil => simp [dictGet]
  | cons p rest ih =>
    by_cases hp : p.1 = k
    · simp [dictGet, hp]
    · simpa [dictGet, hp] using ih

lemma dictGet_dictSet_self {α : Type} (d : List (ℕ × α)) (k : ℕ) (v : α) :
    dictGet (dictSet d k v) k = some v := by
  unfold dictSet
  by_cases hf : (dictGet d k).isSome = true
  · rw [if_pos hf]
    exact dictGet_map_replace d k v hf
  · rw [if_neg hf]
    rcases hget : dictGet d k with _ | x
    · rw [dictGet_append_single, hget]
      rfl
    · exact absurd (by rw [hget]; rfl : (dictGet d k).isSome = true) hf

lemma dictGet_map_replace_ne {α : Type} (d : List (ℕ × α)) (k k2 : ℕ) (v : α) (h : k2 ≠ k) :
    dictGet (d.map (fun p => if p.1 = k then (k, v) else p)) k2 = dictGet d k2 := by
  induction d with
  | nil => rfl
  | cons p rest ih =>
    by_cases hp : p.1 = k
    · have hne : ¬(k = k2) := fun he => h he.symm
      simp [dictGet, hp, hne, ih]
    · by_cases hq : p.1 = k2
      · simp [dictGet, hp, hq, h]
      · simp [dictGet, hp, hq, ih]

lemma dictGet_append_ne {α : Type} (d : List (ℕ × α)) (k k2 : ℕ) (v : α) (h : k2 ≠ k) :
    dictGet (d ++ [(k, v)]) k2 = dictGet d k2 := by
  induction d with
  | nil =>
    have hne : ¬(k = k2) := fun he => h he.symm
    simp [dictGet, hne]
  | cons p rest ih =>
    by_cases hq : p.1 = k2
    · simp [dictGet, hq]
    · simp [dictGet, hq, ih]

lemma dictGet_dictSet_ne {α : Type} (d : List (ℕ × α)) (k k2 : ℕ) (v : α) (h : k2 ≠ k) :
    dictGet (dictSet d k v) k2 = dictGet d k2 := by
  unfold dictSet
  by_cases hf : (dictGet d k).isSome = true
  · rw [if_pos hf]
    exact dictGet_map_replace_ne d k k2 v h
  · rw [if_neg hf]
    exact dictGet_append_ne d k k2 v h

lemma dictGet_dictSet_isSome {α : Type} (d : List (ℕ × α)) (k k2 : ℕ) (v : α)
    (h : (dictGet d k2).isSome = true) :
    (dictGet (dictSet d k v) k2).isSome = true := by
  by_cases hk : k2 = k
  · subst hk
    rw [dictGet_dictSet_self]
    rfl
  · rw [dictGet_dictSet_ne d k k2 v hk]
    exact h

lemma key_mem_isSome {α : Type} (d : List (ℕ × α)) (k : ℕ)
    (h : k ∈ d.map Prod.fst) : (dictGet d k).isSome = true := by
  induction d with
  | nil => simp at h
  | cons p rest ih =>
    by_cases hp : p.1 = k
    · simp [dictGet, hp]
    · have h2 : k ∈ rest.map Prod.fst := by
        rcases List.mem_cons.mp h with he | hr
        · exact absurd he.symm hp
        · exact hr
      simpa [dictGet, hp] using ih h2

lemma dictSet_keys_nodup {α : Type} (d : List (ℕ × α)) (k : ℕ) (v : α)
    (h : (d.map Prod.fst).Nodup) : ((dictSet d k v).map Prod.fst).Nodup := by
  unfold dictSet
  by_cases hf : (dictGet d k).isSome = true
  · rw [if_pos hf, mapReplace_fst]
    exact h
  · rw [if_neg hf]
    have hk : k ∉ d.map Prod.fst := fun hkmem => hf (key_mem_isSome d k hkmem)
    simp only [List.map_append, List.map_cons, List.map_nil]
    rw [List.nodup_append]
    refine ⟨h, List.nodup_singleton k, ?_⟩
    intro a ha hb
    rw [List.mem_singleton] at hb
    exact hk (hb ▸ ha)

lemma dictSet_mem {α : Type} (d : List (ℕ × α)) (k : ℕ) (v : α) (p : ℕ × α)
    (h : p ∈ dictSet d k v) : p ∈ d ∨ p = (k, v) := by
  unfold dictSet at h
  by_cases hf : (dictGet d k).isSome = true
  · rw [if_pos hf] at h
    rcases List.mem_map.mp h with ⟨q, hq1, hq2⟩
    by_cases hqk : q.1 = k
    · right
      rw [← hq2, if_pos hqk]
    · left
      rw [← hq2, if_neg hqk]
      exact hq1
  · rw [if_neg hf] at h
    rcases List.mem_append.mp h with h1 | h2
    · exact Or.inl h1
    · right
      simpa using h2

lemma multOk_add (s : Timeline) (d : Device) (h : MultOk s) :
    MultOk (add_output_device s d) := by
  obtain ⟨h1, h2, h3⟩ := h
  refine ⟨?_, ?_, ?_⟩
  · intro d2 hd2
    rcases List.mem_append.mp hd2 with hmem | hd2d
    · exact dictGet_dictSet_isSome _ _ _ _ (h1 d2 hmem)
    · have : d2 = d := by simpa using hd2d
      subst this
      rw [show (add_output_device s d2).clock_multipliers
          = dictSet s.clock_multipliers d2.id
              (make_clock_multiplier d2.ticks_per_beat s.ticks_per_beat s.next_serial) from rfl]
      rw [dictGet_dictSet_self]
      rfl
  · exact dictSet_keys_nodup _ _ _ h2
  · intro p hp
    rcases dictSet_mem _ _ _ p hp with hmem | heq
    · exact Nat.lt_succ_of_lt (h3 p hmem)
    · rw [heq]
      exact Nat.lt_succ_self _

/-- C7 (amended): the sink registration operations preserve the invariant
that every registered sink identity maps to exactly one clock-rate
translator (unique dict keys), each stamped before the allocation counter;
`add_output_device` installs a translator with the fresh stamp
`s.next_serial`, distinct from every translator installed earlier — so
re-registering a sink replaces its translator with a fresh instance.  The
sink sequence itself may contain duplicate handles, since registration
appends unconditionally (see the counterexample). -/
theorem claim_C7 (s : Timeline) (d : Device) (h : MultOk s) :
    MultOk (add_output_device s d)
    ∧ MultOk (set_output_device s d)
    ∧ dictGet (add_output_device s d).clock_multipliers d.id
        = some (make_clock_multiplier d.ticks_per_beat s.ticks_per_beat s.next_serial)
    ∧ ∀ p ∈ s.clock_multipliers,
        p.2.serial
          ≠ (make_clock_multiplier d.ticks_per_beat s.ticks_per_beat s.next_serial).serial := by
  obtain ⟨h1, h2, h3⟩ := h
  refine ⟨multOk_add s d ⟨h1, h2, h3⟩, ?_, ?_, ?_⟩
  · exact multOk_add { s with output_devices := [] } d
      ⟨fun d2 hd2 => absurd hd2 (List.not_mem_nil d2), h2, h3⟩
  · exact dictGet_dictSet_self _ _ _
  · intro p hp
    exact (h3 p hp).ne

/-- C7 counterexample: registering the same device twice duplicates it in
the sink sequence (so the sinks are not a sequence of unique handles), and
the second registration replaces the first registration's translator with a
fresh instance (serial 1 instead of 0) while the sink remained registered. -/
theorem claim_C7_counterexample :
    c7State.output_devices = [c7Device, c7Device]
    ∧ ¬ c7State.output_devices.Nodup
    ∧ dictGet c7State.clock_multipliers c7Device.id
        = some (make_clock_multiplier 24 480 1) := by
  refine ⟨rfl, by decide, rfl⟩

/-- C7 witness: the fresh timeline satisfies the invariant, and registering
a device preserves it and installs the stamped translator. -/
theorem claim_C7_witness :
    MultOk timelineInit
    ∧ MultOk (add_output_device timelineInit c7Device)
    ∧ dictGet (add_output_device timelineInit c7Device).clock_multipliers c7Device.id
        = some (make_clock_multiplier c7Device.ticks_per_beat timelineInit.ticks_per_beat
            timelineInit.next_serial) := by
  have hm : MultOk timelineInit :=
    ⟨fun d2 hd2 => absurd hd2 (List.not_mem_nil d2), List.nodup_nil,
      fun p hp => absurd hp (List.not_mem_nil p)⟩
  exact ⟨hm, (claim_C7 timelineInit c7Device hm).1, (claim_C7 timelineInit c7Device hm).2.2.1⟩

end IsobarExt
